import Mathlib

/-!
Verification of the civicwatch chunk-then-map-reduce summarization core.

Python strings are modelled as `List Char` (`Str`); machine text operations
(`str.strip`, `str.split("\n\n")`, negative slicing) are embedded as
executable Lean functions below.  The chunker, map summarizer, reduce
summarizer and pipeline orchestrator are then shallowly embedded, with the
language-model oracle and the on-disk caches passed in explicitly.
-/

set_option autoImplicit false
set_option maxRecDepth 8192

abbrev Str := List Char

/-- Whitespace characters stripped by Python `str.strip()` (ASCII range). -/
def pyIsSpace (c : Char) : Bool :=
  c == ' ' || c == '\t' || c == '\n' || c == '\r' || c == '\x0b' || c == '\x0c'

/-- Python `str.lstrip()`. -/
def lstrip (s : Str) : Str := s.dropWhile pyIsSpace

/-- Python `str.rstrip()`. -/
def rstrip (s : Str) : Str := (s.reverse.dropWhile pyIsSpace).reverse

/-- Python `str.strip()`. -/
def pyStrip (s : Str) : Str := rstrip (lstrip s)

/-- The paragraph separator `"\n\n"` used throughout the chunker. -/
def paraSep : Str := ['\n', '\n']

/-- Python `text.split("\n\n")`: leftmost, non-overlapping splitting on the
blank-line separator. -/
def splitParas : Str → List Str
  | [] => [[]]
  | '\n' :: '\n' :: rest => [] :: splitParas rest
  | c :: rest =>
    match splitParas rest with
    | h :: t => (c :: h) :: t
    | [] => [[c]]

/-- Python `s[-n:]` for `n > 0`: the last `min n s.length` characters. -/
def lastN (s : Str) (n : Nat) : Str := s.drop (s.length - n)

/-- A chunk record `{parent_id, chunk_index, text}` as built by
`TextChunker.chunk`. -/
structure Chunk where
  parent_id : String
  chunk_index : Nat
  text : Str
  deriving DecidableEq, Repr

namespace TextChunker

/-- One iteration of the paragraph loop in `TextChunker.chunk`
(chunk_text.py lines 58-85).  State is `(chunks, current_chunk, chunk_index)`. -/
def chunkStep (chunk_size overlap_size : Nat) (doc_id : String)
    (st : List Chunk × Str × Nat) (para0 : Str) : List Chunk × Str × Nat :=
  let chunks := st.1
  let current_chunk := st.2.1
  let chunk_index := st.2.2
  let para := pyStrip para0
  if para = [] then (chunks, current_chunk, chunk_index)
  else if current_chunk.length + para.length + 2 > chunk_size ∧ current_chunk ≠ [] then
    ( chunks ++ [⟨doc_id, chunk_index, pyStrip current_chunk⟩],
      if overlap_size > 0 then lastN current_chunk overlap_size ++ paraSep ++ para
      else para,
      chunk_index + 1 )
  else
    ( chunks,
      if current_chunk ≠ [] then current_chunk ++ paraSep ++ para else para,
      chunk_index )

/-- The whole paragraph loop, started from the empty state. -/
def chunkLoop (chunk_size overlap_size : Nat) (doc_id : String)
    (paras : List Str) : List Chunk × Str × Nat :=
  paras.foldl (chunkStep chunk_size overlap_size doc_id) ([], [], 0)

/-- The chunk list after the paragraph loop and the final-buffer flush
(chunk_text.py lines 47-93), before the single-chunk fallback. -/
def chunkRaw (chunk_size overlap_size : Nat) (doc_id : String) (text : Str) :
    List Chunk :=
  let st := chunkLoop chunk_size overlap_size doc_id (splitParas text)
  if pyStrip st.2.1 ≠ [] then st.1 ++ [⟨doc_id, st.2.2, pyStrip st.2.1⟩] else st.1

/-- The pure computation of `TextChunker.chunk` (chunk_text.py lines 47-101):
empty-input early return, paragraph loop, final flush, single-chunk fallback. -/
def chunkPure (chunk_size overlap_size : Nat) (doc_id : String) (text : Str) :
    List Chunk :=
  if text = [] then []
  else
    let chunks := chunkRaw chunk_size overlap_size doc_id text
    if chunks = [] ∧ text ≠ [] then [⟨doc_id, 0, pyStrip text⟩] else chunks

/-- `TextChunker.chunk` including the `_save_chunks` side effect
(chunk_text.py lines 103-124): the chunk list is computed, persisted via
`save`, and returned; `_save_chunks` has no exception handler, so a failing
write propagates. -/
def chunk (chunk_size overlap_size : Nat)
    (save : String → List Chunk → Except Unit Unit)
    (doc_id : String) (text : Str) : Except Unit (List Chunk) :=
  let chunks := chunkPure chunk_size overlap_size doc_id text
  match save doc_id chunks with
  | .ok _ => .ok chunks
  | .error e => .error e

/-- Instrumented variant of `chunkStep` recording, next to each emitted
chunk, the un-stripped buffer (`current_chunk`) it was closed out from —
the buffer whose trailing `overlap_size` characters seed the next buffer. -/
def chunkStepB (chunk_size overlap_size : Nat) (doc_id : String)
    (st : List (Chunk × Str) × Str × Nat) (para0 : Str) :
    List (Chunk × Str) × Str × Nat :=
  let chunks := st.1
  let current_chunk := st.2.1
  let chunk_index := st.2.2
  let para := pyStrip para0
  if para = [] then (chunks, current_chunk, chunk_index)
  else if current_chunk.length + para.length + 2 > chunk_size ∧ current_chunk ≠ [] then
    ( chunks ++ [(⟨doc_id, chunk_index, pyStrip current_chunk⟩, current_chunk)],
      if overlap_size > 0 then lastN current_chunk overlap_size ++ paraSep ++ para
      else para,
      chunk_index + 1 )
  else
    ( chunks,
      if current_chunk ≠ [] then current_chunk ++ paraSep ++ para else para,
      chunk_index )

/-- Instrumented paragraph loop. -/
def chunkLoopB (chunk_size overlap_size : Nat) (doc_id : String)
    (paras : List Str) : List (Chunk × Str) × Str × Nat :=
  paras.foldl (chunkStepB chunk_size overlap_size doc_id) ([], [], 0)

/-- Instrumented loop plus final flush. -/
def chunkRawB (chunk_size overlap_size : Nat) (doc_id : String) (text : Str) :
    List (Chunk × Str) :=
  let st := chunkLoopB chunk_size overlap_size doc_id (splitParas text)
  if pyStrip st.2.1 ≠ [] then
    st.1 ++ [(⟨doc_id, st.2.2, pyStrip st.2.1⟩, st.2.1)]
  else st.1

/-- The instrumented chunker: same control flow as `chunkPure`, each chunk
paired with its source buffer. -/
def chunkInstr (chunk_size overlap_size : Nat) (doc_id : String)
    (text : Str) : List (Chunk × Str) :=
  if text = [] then []
  else
    let chunks := chunkRawB chunk_size overlap_size doc_id text
    if chunks = [] ∧ text ≠ [] then [(⟨doc_id, 0, pyStrip text⟩, text)]
    else chunks

end TextChunker

/-- No trailing Python whitespace: the last character, when present, is not
stripped by `str.strip()`. -/
def noTrailWS (s : Str) : Prop :=
  ∀ c, s.getLast? = some c → pyIsSpace c = false

/-- The C5 relation between consecutive instrumented chunks: the next
chunk's text begins with the trailing `overlap_size` characters of the
buffer the previous chunk was closed out from, after stripping the leading
edge whitespace that `str.strip()` removes at the seam. -/
def overlapSeeded (overlap_size : Nat) (a b : Chunk × Str) : Prop :=
  lstrip (lastN a.2 overlap_size) <+: b.1.text

/-- Invariant of the instrumented paragraph loop: the running buffer ends in
a non-whitespace character, an empty buffer means nothing was emitted yet,
every emitted chunk's text is its buffer stripped, consecutive emitted
chunks satisfy the overlap-seeding relation, and the running buffer extends
the overlap seed taken from the last emitted chunk's buffer. -/
structure LoopInv (overlap_size : Nat)
    (st : List (Chunk × Str) × Str × Nat) : Prop where
  cur_nil : st.2.1 = [] → st.1 = []
  cur_ends : noTrailWS st.2.1
  text_eq : ∀ pr ∈ st.1, pr.1.text = pyStrip pr.2
  chain : List.Chain' (overlapSeeded overlap_size) st.1
  seeded : ∀ pr, st.1.getLast? = some pr → st.2.1 ≠ [] →
    lstrip (lastN pr.2 overlap_size) <+: lstrip st.2.1

/-- A chunk-summary record `{parent_id, chunk_index, summary}` as built by
`MapSummarizer.summarize_chunks`. -/
structure ChunkSummary where
  parent_id : String
  chunk_index : Nat
  summary : Str
  deriving DecidableEq, Repr

/-- The per-chunk summary cache: one persisted record per
`(parent_id, chunk_index)` key (`"{parent_id}_chunk_{index}.json"`), holding
the stored summary text. -/
def MapCache := String × Nat → Option Str

/-- An absent cache directory: no entry for any key. -/
def emptyMapCache : MapCache := fun _ => none

/-- `MapSummarizer._load_cached_summary` (map_summarize.py lines 126-148):
returns the stored summary for the key, or none when no file exists. -/
def loadCachedSummary (cache : MapCache) (parent_id : String)
    (chunk_index : Nat) : Option Str :=
  cache (parent_id, chunk_index)

/-- `MapSummarizer._save_summary` (map_summarize.py lines 150-171): writes the
record for the key, overwriting any prior value. -/
def saveMapSummary (cache : MapCache) (parent_id : String) (chunk_index : Nat)
    (summary : Str) : MapCache :=
  fun k => if k = (parent_id, chunk_index) then some summary else cache k

/-- The fixed text of the map prompt template before `{text}`. -/
def mapPromptHead : Str :=
  ("Summarize this civic or government-related text in 2-3 sentences.\n"
    ++ "Focus on actions taken and why it matters to the public.\n"
    ++ "Use neutral tone.\n\nText to summarize:\n").toList

/-- The fixed text of the map prompt template after `{text}`. -/
def mapPromptTail : Str := "\n\nSummary:".toList

/-- `self.prompt_template.format(text=text)` for the map summarizer. -/
def mapPrompt (text : Str) : Str := mapPromptHead ++ text ++ mapPromptTail

/-- The oracle `self.llm.invoke`: a synchronous prompt-to-text function whose
failures surface as exceptions, modelled as `Except`. -/
def Oracle := Str → Except Unit Str

/-- Result of one `summarize_chunk` call: the returned value, the cache state
after the call, and how many oracle invocations the call made. -/
structure MapOutcome where
  result : Option Str
  cache : MapCache
  calls : Nat

namespace MapSummarizer

/-- The cache-bypass check at the top of `summarize_chunk` (map_summarize.py
lines 76-80): unless `force_rerun`, a cached summary counts only when truthy
(`if cached:` — a stored empty string is falsy and treated as a miss). -/
def cachedCheck (cache : MapCache) (c : Chunk) (force_rerun : Bool) :
    Option Str :=
  if force_rerun then none
  else match loadCachedSummary cache c.parent_id c.chunk_index with
    | some s => if s ≠ [] then some s else none
    | none => none

/-- `MapSummarizer.summarize_chunk` (map_summarize.py lines 61-100).  Unless
`force_rerun`, a truthy cached summary (`if cached:`) is returned with no
oracle call; otherwise the oracle is invoked on the formatted prompt, the
response is stripped and saved, and the stripped text returned; an oracle
exception is caught and yields none. -/
def summarize_chunk (oracle : Oracle) (cache : MapCache) (c : Chunk)
    (force_rerun : Bool) : MapOutcome :=
  match cachedCheck cache c force_rerun with
  | some s => ⟨some s, cache, 0⟩
  | none =>
    match oracle (mapPrompt c.text) with
    | .ok response =>
      ⟨some (pyStrip response),
        saveMapSummary cache c.parent_id c.chunk_index (pyStrip response), 1⟩
    | .error _ => ⟨none, cache, 1⟩


/-- The `if summary_text:` append step of `summarize_chunks`
(map_summarize.py lines 116-122): a truthy (non-none, non-empty) summary is
appended, anything else is silently skipped. -/
def appendSummary (c : Chunk) (r : Option Str)
    (tail : List ChunkSummary × MapCache) : List ChunkSummary × MapCache :=
  match r with
  | some s =>
    if s ≠ [] then (⟨c.parent_id, c.chunk_index, s⟩ :: tail.1, tail.2)
    else tail
  | none => tail

/-- `MapSummarizer.summarize_chunks` (map_summarize.py lines 102-124):
summarize each chunk in order, appending a `ChunkSummary` only when a truthy
summary text came back (`if summary_text:`). -/
def summarize_chunks (oracle : Oracle) (cache : MapCache) :
    List Chunk → Bool → List ChunkSummary × MapCache
  | [], _ => ([], cache)
  | c :: rest, force_rerun =>
    appendSummary c (summarize_chunk oracle cache c force_rerun).result
      (summarize_chunks oracle
        (summarize_chunk oracle cache c force_rerun).cache rest force_rerun)

end MapSummarizer

/-- The final-summary cache: one persisted record per document id
(`"{doc_id}_final.json"`). -/
def ReduceCache := String → Option Str

/-- `ReduceSummarizer._save_summary` (reduce_summarize.py lines 133-152). -/
def saveReduceSummary (cache : ReduceCache) (doc_id : String) (summary : Str) :
    ReduceCache :=
  fun k => if k = doc_id then some summary else cache k

/-- One numbered line `f"Chunk {i+1}: {s}"` of the aggregation input. -/
def chunkLine (i : Nat) (s : Str) : Str :=
  "Chunk ".toList ++ (toString (i + 1)).toList ++ ": ".toList ++ s

/-- `"\n\n".join([f"Chunk {i+1}: {s}" for i, s in enumerate(chunk_summaries)])`
(reduce_summarize.py line 89). -/
def joinedSummaries (chunk_summaries : List Str) : Str :=
  List.intercalate paraSep
    (chunk_summaries.enum.map fun p => chunkLine p.1 p.2)

/-- The fixed text of the reduce prompt template before `{title}`. -/
def reducePromptHead : Str :=
  ("Create a concise weekly civic summary from these chunk summaries.\n"
    ++ "Group related items.\nAvoid repetition.\nHighlight major actions.\n"
    ++ "Use neutral, plain language.\n\nDocument title: ").toList

/-- The fixed reduce template text between `{title}` and `{summaries}`. -/
def reducePromptMid : Str := "\n\nChunk summaries:\n".toList

/-- The fixed text of the reduce prompt template after `{summaries}`. -/
def reducePromptTail : Str := "\n\nFinal summary:".toList

/-- `self.prompt_template.format(summaries=..., title=...)` for the reducer. -/
def reducePrompt (title summaries_text : Str) : Str :=
  reducePromptHead ++ title ++ reducePromptMid ++ summaries_text
    ++ reducePromptTail

/-- Result of one `reduce` call: the returned value, the cache after the
call, the number of oracle invocations, and the number of cache reads. -/
structure ReduceOutcome where
  result : Option Str
  cache : ReduceCache
  calls : Nat
  cacheReads : Nat

namespace ReduceSummarizer

/-- The generation path of `reduce` (reduce_summarize.py lines 88-108): join
the numbered summaries, invoke the oracle once on the aggregation prompt,
strip and persist the result; an oracle exception is caught and yields none. -/
def reduceGen (oracle : Oracle) (cache : ReduceCache) (doc_id : String)
    (title : Str) (chunk_summaries : List Str) (reads : Nat) : ReduceOutcome :=
  let summaries_text := joinedSummaries chunk_summaries
  match oracle (reducePrompt title summaries_text) with
  | .ok response =>
    let final_summary := pyStrip response
    ⟨some final_summary, saveReduceSummary cache doc_id final_summary, 1, reads⟩
  | .error _ => ⟨none, cache, 1, reads⟩

/-- `ReduceSummarizer.reduce` (reduce_summarize.py lines 65-108): empty input
short-circuits to none before any cache access; otherwise unless `force_rerun`
a truthy cached final summary is returned; otherwise the oracle generates,
and the result is cached under `doc_id`. -/
def reduce (oracle : Oracle) (cache : ReduceCache) (doc_id : String)
    (title : Str) (chunk_summaries : List Str) (force_rerun : Bool) :
    ReduceOutcome :=
  if chunk_summaries = [] then ⟨none, cache, 0, 0⟩
  else if force_rerun then
    reduceGen oracle cache doc_id title chunk_summaries 0
  else
    match cache doc_id with
    | some cachedSummary =>
      if cachedSummary ≠ [] then ⟨some cachedSummary, cache, 0, 1⟩
      else reduceGen oracle cache doc_id title chunk_summaries 1
    | none => reduceGen oracle cache doc_id title chunk_summaries 1

end ReduceSummarizer

/-- The normalized document record as read by the pipeline: only `id`,
`title` and `text` are consumed downstream. -/
structure Document where
  id : String
  title : Str
  text : Str

/-- The body of the `try:` block of `SummarizationPipeline.run`
(pipeline.py lines 72-119): Scrape, Normalize, Chunk (empty ⇒ none), Map
(empty ⇒ none), Reduce (none ⇒ none).  Each stage is a collaborator that may
raise, modelled as an `Except`-valued function; a raised exception propagates
out of the body. -/
def runBody {Raw : Type} (scrape : Except Unit Raw)
    (normalize : Raw → Except Unit Document)
    (chunkStage : String → Str → Except Unit (List Chunk))
    (mapStage : List Chunk → Except Unit (List ChunkSummary))
    (reduceStage : String → Str → List Str → Except Unit (Option Str)) :
    Except Unit (Option Str) := do
  let raw_data ← scrape
  let normalized ← normalize raw_data
  let chunks ← chunkStage normalized.id normalized.text
  if chunks = [] then return none
  let chunk_summaries ← mapStage chunks
  if chunk_summaries = [] then return none
  let summary_texts := chunk_summaries.map ChunkSummary.summary
  let final_summary ← reduceStage normalized.id normalized.title summary_texts
  match final_summary with
  | some s => return some s
  | none => return none

/-- `SummarizationPipeline.run` (pipeline.py lines 60-123): the stage sequence
wrapped in `try: ... except Exception: return None`. -/
def SummarizationPipeline.run {Raw : Type} (scrape : Except Unit Raw)
    (normalize : Raw → Except Unit Document)
    (chunkStage : String → Str → Except Unit (List Chunk))
    (mapStage : List Chunk → Except Unit (List ChunkSummary))
    (reduceStage : String → Str → List Str → Except Unit (Option Str)) :
    Option Str :=
  match runBody scrape normalize chunkStage mapStage reduceStage with
  | .ok result => result
  | .error _ => none

namespace MapSummarizer

theorem summarize_chunk_of_hit {cache : MapCache} {c : Chunk}
    {force_rerun : Bool} {s : Str} (oracle : Oracle)
    (h : cachedCheck cache c force_rerun = some s) :
    summarize_chunk oracle cache c force_rerun = ⟨some s, cache, 0⟩ := by
  unfold summarize_chunk
  rw [h]

theorem summarize_chunk_of_miss_ok {oracle : Oracle} {cache : MapCache}
    {c : Chunk} {force_rerun : Bool} {response : Str}
    (h : cachedCheck cache c force_rerun = none)
    (ho : oracle (mapPrompt c.text) = .ok response) :
    summarize_chunk oracle cache c force_rerun
      = ⟨some (pyStrip response),
          saveMapSummary cache c.parent_id c.chunk_index (pyStrip response),
          1⟩ := by
  unfold summarize_chunk
  rw [h, ho]

theorem summarize_chunk_of_miss_error {oracle : Oracle} {cache : MapCache}
    {c : Chunk} {force_rerun : Bool} {e : Unit}
    (h : cachedCheck cache c force_rerun = none)
    (ho : oracle (mapPrompt c.text) = .error e) :
    summarize_chunk oracle cache c force_rerun = ⟨none, cache, 1⟩ := by
  unfold summarize_chunk
  rw [h, ho]

end MapSummarizer

example :
    TextChunker.chunkPure 1000 150 "d" ("hello world".toList)
      = [⟨"d", 0, "hello world".toList⟩] := by decide

example : splitParas ("a\n\nb".toList) = ["a".toList, "b".toList] := by decide

example : splitParas ("\n\n\n".toList) = [[], ['\n']] := by decide

theorem getLast?_mem_of {α : Type} {l : List α} {a : α}
    (h : l.getLast? = some a) : a ∈ l := by
  obtain ⟨hne, rfl⟩ := List.mem_getLast?_eq_getLast h
  exact List.getLast_mem hne

theorem lstrip_eq_nil_of_all {s : Str} (h : ∀ c ∈ s, pyIsSpace c) :
    lstrip s = [] := by
  unfold lstrip
  rw [List.dropWhile_eq_nil_iff]
  exact h

theorem pyStrip_eq_nil_of_all {s : Str} (h : ∀ c ∈ s, pyIsSpace c) :
    pyStrip s = [] := by
  unfold pyStrip
  rw [lstrip_eq_nil_of_all h]
  rfl

theorem lstrip_head_not_space (s : Str) :
    ∀ c, (lstrip s).head? = some c → pyIsSpace c = false := by
  induction s with
  | nil => intro c hc; cases hc
  | cons a t ih =>
    intro c hc
    unfold lstrip at hc
    by_cases ha : pyIsSpace a
    · rw [List.dropWhile_cons_of_pos ha] at hc
      exact ih c hc
    · rw [List.dropWhile_cons_of_neg ha] at hc
      cases hc
      exact Bool.not_eq_true _ |>.mp ha

theorem lstrip_eq_self_of_head {s : Str}
    (h : ∀ c, s.head? = some c → pyIsSpace c = false) : lstrip s = s := by
  cases s with
  | nil => rfl
  | cons a t =>
    unfold lstrip
    rw [List.dropWhile_cons_of_neg]
    rw [h a rfl]
    exact Bool.false_ne_true

theorem rstrip_last_not_space (s : Str) :
    ∀ c, (rstrip s).getLast? = some c → pyIsSpace c = false := by
  intro c hc
  unfold rstrip at hc
  rw [← List.head?_reverse, List.reverse_reverse] at hc
  exact lstrip_head_not_space s.reverse c hc

theorem rstrip_eq_self_of_getLast {s : Str}
    (h : ∀ c, s.getLast? = some c → pyIsSpace c = false) : rstrip s = s := by
  have hh : lstrip s.reverse = s.reverse :=
    lstrip_eq_self_of_head (fun c hc => h c (by rwa [List.head?_reverse] at hc))
  unfold lstrip at hh
  unfold rstrip
  rw [hh, List.reverse_reverse]

theorem rstrip_prefix_self (s : Str) : rstrip s <+: s := by
  have h : List.dropWhile pyIsSpace s.reverse <:+ s.reverse :=
    List.dropWhile_suffix pyIsSpace
  have h2 : (List.dropWhile pyIsSpace s.reverse).reverse
      <+: s.reverse.reverse := List.reverse_prefix.mpr h
  rw [List.reverse_reverse] at h2
  exact h2

theorem pyStrip_head_not_space (s : Str) :
    ∀ c, (pyStrip s).head? = some c → pyIsSpace c = false := by
  intro c hc
  unfold pyStrip at hc
  obtain ⟨t, ht⟩ := rstrip_prefix_self (lstrip s)
  apply lstrip_head_not_space s c
  rw [← ht]
  cases hx : rstrip (lstrip s) with
  | nil => rw [hx] at hc; cases hc
  | cons a u =>
    rw [hx] at hc
    cases hc
    rfl

theorem pyStrip_last_not_space (s : Str) :
    ∀ c, (pyStrip s).getLast? = some c → pyIsSpace c = false :=
  rstrip_last_not_space (lstrip s)

theorem pyStrip_idem (s : Str) : pyStrip (pyStrip s) = pyStrip s := by
  show rstrip (lstrip (pyStrip s)) = pyStrip s
  rw [lstrip_eq_self_of_head (pyStrip_head_not_space s),
    rstrip_eq_self_of_getLast (pyStrip_last_not_space s)]

theorem lstrip_ne_nil_of_getLast {s : Str} {a : Char}
    (hl : s.getLast? = some a) (ha : pyIsSpace a = false) :
    lstrip s ≠ [] := by
  intro hnil
  have := List.dropWhile_eq_nil_iff.mp hnil a (getLast?_mem_of hl)
  rw [ha] at this
  cases this

theorem rstrip_eq_self_of_getLast' {s : Str} {a : Char}
    (hl : s.getLast? = some a) (ha : pyIsSpace a = false) : rstrip s = s :=
  rstrip_eq_self_of_getLast (fun c hc => by
    rw [hl] at hc
    cases hc
    exact ha)

theorem lstrip_append_of_ne_nil {a : Str} (b : Str) (h : lstrip a ≠ []) :
    lstrip (a ++ b) = lstrip a ++ b := by
  induction a with
  | nil => exact absurd rfl h
  | cons x t ih =>
    by_cases hx : pyIsSpace x
    · unfold lstrip at h ⊢
      rw [List.cons_append, List.dropWhile_cons_of_pos hx,
        List.dropWhile_cons_of_pos hx]
      rw [List.dropWhile_cons_of_pos hx] at h
      exact ih h
    · unfold lstrip
      rw [List.cons_append, List.dropWhile_cons_of_neg hx,
        List.dropWhile_cons_of_neg hx, List.cons_append]

theorem splitParas_cons_eq (c : Char) (rest : Str)
    (h : ∀ rest', c = '\n' → rest = '\n' :: rest' → False) :
    splitParas (c :: rest) = (match splitParas rest with
      | h0 :: t => (c :: h0) :: t
      | [] => [[c]]) := by
  rw [splitParas.eq_def]
  split
  · simp_all
  · rename_i rest2 heq
    injection heq with h1 h2
    exact (h rest2 h1 h2).elim
  · rename_i c2 rest2 hne heq
    injection heq with h1 h2
    subst h1
    subst h2
    rfl

theorem splitParas_chars : ∀ (s : Str), ∀ p ∈ splitParas s, ∀ c ∈ p, c ∈ s := by
  intro s
  induction s using splitParas.induct with
  | case1 =>
    intro p hp c hc
    rcases List.mem_singleton.mp hp with rfl
    cases hc
  | case2 rest ih =>
    intro p hp c hc
    rcases List.mem_cons.mp hp with rfl | hp
    · cases hc
    · exact List.mem_cons_of_mem _ (List.mem_cons_of_mem _ (ih p hp c hc))
  | case3 c0 rest h p0 t0 heq ih =>
    intro p hp c hc
    rw [splitParas_cons_eq c0 rest h, heq] at hp
    rcases List.mem_cons.mp hp with rfl | hp
    · rcases List.mem_cons.mp hc with rfl | hc
      · exact List.mem_cons_self _ _
      · exact List.mem_cons_of_mem _ (ih p0 (heq ▸ List.mem_cons_self p0 t0) c hc)
    · exact List.mem_cons_of_mem _
        (ih p (heq ▸ List.mem_cons_of_mem p0 hp) c hc)
  | case4 c0 rest h heq ih =>
    intro p hp c hc
    rw [splitParas_cons_eq c0 rest h, heq] at hp
    rcases List.mem_singleton.mp hp with rfl
    rcases List.mem_singleton.mp hc with rfl
    exact List.mem_cons_self _ _

theorem splitParas_of_no_sep : ∀ s : Str, ¬ paraSep <:+: s →
    splitParas s = [s] := by
  intro s
  induction s using splitParas.induct with
  | case1 => intro _; rfl
  | case2 rest ih =>
    intro hsep
    exact absurd ⟨[], rest, rfl⟩ hsep
  | case3 c0 rest h p0 t0 heq ih =>
    intro hsep
    have hrest : ¬ paraSep <:+: rest :=
      fun hr => hsep (List.infix_cons hr)
    rw [splitParas_cons_eq c0 rest h, ih hrest]
  | case4 c0 rest h heq ih =>
    intro hsep
    have hrest : ¬ paraSep <:+: rest :=
      fun hr => hsep (List.infix_cons hr)
    rw [ih hrest] at heq
    cases heq

theorem chunkLoop_skip_all (chunk_size overlap_size : Nat) (doc_id : String)
    (paras : List Str) (st : List Chunk × Str × Nat)
    (h : ∀ p ∈ paras, pyStrip p = []) :
    paras.foldl (TextChunker.chunkStep chunk_size overlap_size doc_id) st
      = st := by
  induction paras generalizing st with
  | nil => rfl
  | cons p rest ih =>
    rw [List.foldl_cons]
    have hstep : TextChunker.chunkStep chunk_size overlap_size doc_id st p
        = st := by
      unfold TextChunker.chunkStep
      rw [h p (List.mem_cons_self p rest)]
      rfl
    rw [hstep]
    exact ih st (fun q hq => h q (List.mem_cons_of_mem p hq))

/-- C9: for non-empty but whitespace-only input text, `chunk` returns
exactly one chunk `{parent_id: doc_id, chunk_index: 0, text: ""}` with empty
text — the fallback path is reachable for non-empty input, and a chunk with
empty text can flow into the Map stage. -/
theorem c9_whitespace_only_single_empty_chunk (chunk_size overlap_size : Nat)
    (doc_id : String) (text : Str) (hne : text ≠ [])
    (hws : ∀ c ∈ text, pyIsSpace c) :
    TextChunker.chunkPure chunk_size overlap_size doc_id text
      = [⟨doc_id, 0, []⟩] := by
  have hparas : ∀ p ∈ splitParas text, pyStrip p = [] := by
    intro p hp
    exact pyStrip_eq_nil_of_all
      (fun c hc => hws c (splitParas_chars text p hp c hc))
  have hloop : TextChunker.chunkLoop chunk_size overlap_size doc_id
      (splitParas text) = ([], [], 0) :=
    chunkLoop_skip_all chunk_size overlap_size doc_id (splitParas text)
      ([], [], 0) hparas
  have hraw : TextChunker.chunkRaw chunk_size overlap_size doc_id text
      = [] := by
    unfold TextChunker.chunkRaw
    rw [hloop]
    rfl
  unfold TextChunker.chunkPure
  rw [if_neg hne, hraw, if_pos ⟨rfl, hne⟩, pyStrip_eq_nil_of_all hws]

/-- Witness for C9 at the concrete text `"\n\n"`. -/
theorem c9_whitespace_only_single_empty_chunk_witness :
    TextChunker.chunkPure 1000 150 "d" ("\n\n".toList) = [⟨"d", 0, []⟩] :=
  c9_whitespace_only_single_empty_chunk 1000 150 "d" ("\n\n".toList)
    (by decide) (by decide)

/-- C10: a single paragraph (no blank-line separator anywhere in the text)
whose trimmed length exceeds `chunk_size` is returned as exactly one chunk
holding the entire trimmed text — its length greater than `chunk_size`, so
chunk text length is not bounded by `chunk_size` and a paragraph is never
split. -/
theorem c10_single_long_paragraph_not_split (chunk_size overlap_size : Nat)
    (doc_id : String) (text : Str) (hsep : ¬ paraSep <:+: text)
    (hlong : chunk_size < (pyStrip text).length) :
    TextChunker.chunkPure chunk_size overlap_size doc_id text
        = [⟨doc_id, 0, pyStrip text⟩]
      ∧ chunk_size < (pyStrip text).length := by
  refine ⟨?_, hlong⟩
  have hstripne : pyStrip text ≠ [] := by
    intro hnil
    rw [hnil] at hlong
    exact Nat.not_lt_zero chunk_size hlong
  have hne : text ≠ [] := by
    intro hnil
    subst hnil
    exact hstripne rfl
  have hparas : splitParas text = [text] := splitParas_of_no_sep text hsep
  have hloop : TextChunker.chunkLoop chunk_size overlap_size doc_id
      (splitParas text) = ([], pyStrip text, 0) := by
    unfold TextChunker.chunkLoop
    rw [hparas, List.foldl_cons, List.foldl_nil]
    unfold TextChunker.chunkStep
    rw [if_neg (by exact fun hh => hstripne hh)]
    rw [if_neg (by rintro ⟨-, h2⟩; exact h2 rfl)]
    rfl
  have hraw : TextChunker.chunkRaw chunk_size overlap_size doc_id text
      = [⟨doc_id, 0, pyStrip text⟩] := by
    unfold TextChunker.chunkRaw
    rw [hloop]
    simp only [ne_eq]
    rw [if_pos (by rw [pyStrip_idem]; exact hstripne), pyStrip_idem]
    rfl
  unfold TextChunker.chunkPure
  rw [if_neg hne, hraw]
  rw [if_neg (by rintro ⟨h1, -⟩; cases h1)]

/-- Witness for C10 at a concrete 12-character single paragraph with
`chunk_size = 10`. -/
theorem c10_single_long_paragraph_not_split_witness :
    TextChunker.chunkPure 10 1 "d" (" hello worlds ".toList)
        = [⟨"d", 0, pyStrip (" hello worlds ".toList)⟩]
      ∧ 10 < (pyStrip (" hello worlds ".toList)).length :=
  c10_single_long_paragraph_not_split 10 1 "d" (" hello worlds ".toList)
    (by decide) (by decide)

theorem getLast?_suffix_ne_nil {α : Type} {l' l : List α} (h : l' <:+ l)
    (hne : l' ≠ []) : l'.getLast? = l.getLast? := by
  obtain ⟨pre, hpre⟩ := h
  rw [← hpre, List.getLast?_append_of_ne_nil pre hne]

theorem pyStrip_eq_lstrip {s : Str} (h : noTrailWS s) :
    pyStrip s = lstrip s := by
  unfold pyStrip
  apply rstrip_eq_self_of_getLast
  intro c hc
  apply h
  have hne : lstrip s ≠ [] := by
    intro hnil
    rw [hnil] at hc
    cases hc
  rw [← getLast?_suffix_ne_nil (List.dropWhile_suffix pyIsSpace) hne]
  exact hc

theorem lastN_zero (s : Str) : lastN s 0 = [] := by
  unfold lastN
  rw [Nat.sub_zero, List.drop_length]

theorem lastN_getLast? {s : Str} (hs : s ≠ []) {os : Nat} (hos : 0 < os) :
    (lastN s os).getLast? = s.getLast? := by
  have hne : lastN s os ≠ [] := by
    unfold lastN
    rw [← List.length_pos, List.length_drop]
    have h1 : 0 < s.length := List.length_pos.mpr hs
    omega
  exact getLast?_suffix_ne_nil (List.drop_suffix _ s) hne

theorem lstrip_lastN_ne_nil {s : Str} (hne : s ≠ []) (hend : noTrailWS s)
    {os : Nat} (hos : 0 < os) : lstrip (lastN s os) ≠ [] := by
  have hl : s.getLast? = some (s.getLast hne) :=
    List.getLast?_eq_getLast_of_ne_nil hne
  exact lstrip_ne_nil_of_getLast ((lastN_getLast? hne hos).trans hl)
    (hend _ hl)

theorem lstrip_cur_ne_nil {s : Str} (hne : s ≠ []) (hend : noTrailWS s) :
    lstrip s ≠ [] := by
  have hl : s.getLast? = some (s.getLast hne) :=
    List.getLast?_eq_getLast_of_ne_nil hne
  exact lstrip_ne_nil_of_getLast hl (hend _ hl)

theorem chunkStepB_fst (chunk_size overlap_size : Nat) (doc_id : String)
    (st : List (Chunk × Str) × Str × Nat) (p : Str) :
    TextChunker.chunkStep chunk_size overlap_size doc_id
        (st.1.map Prod.fst, st.2) p
      = ((TextChunker.chunkStepB chunk_size overlap_size doc_id st p).1.map
          Prod.fst,
         (TextChunker.chunkStepB chunk_size overlap_size doc_id st p).2) := by
  rcases st with ⟨chunks, cur, idx⟩
  unfold TextChunker.chunkStep TextChunker.chunkStepB
  dsimp only
  split_ifs <;> simp [List.map_append]

theorem chunkLoopB_fst_aux (chunk_size overlap_size : Nat) (doc_id : String)
    (paras : List Str) :
    ∀ st : List (Chunk × Str) × Str × Nat,
      paras.foldl (TextChunker.chunkStep chunk_size overlap_size doc_id)
          (st.1.map Prod.fst, st.2)
        = ((paras.foldl (TextChunker.chunkStepB chunk_size overlap_size
              doc_id) st).1.map Prod.fst,
           (paras.foldl (TextChunker.chunkStepB chunk_size overlap_size
              doc_id) st).2) := by
  induction paras with
  | nil => intro st; rfl
  | cons p rest ih =>
    intro st
    rw [List.foldl_cons, List.foldl_cons, chunkStepB_fst]
    exact ih (TextChunker.chunkStepB chunk_size overlap_size doc_id st p)

theorem chunkLoop_eq_fst (chunk_size overlap_size : Nat) (doc_id : String)
    (paras : List Str) :
    TextChunker.chunkLoop chunk_size overlap_size doc_id paras
      = ((TextChunker.chunkLoopB chunk_size overlap_size doc_id paras).1.map
          Prod.fst,
         (TextChunker.chunkLoopB chunk_size overlap_size doc_id paras).2) :=
  chunkLoopB_fst_aux chunk_size overlap_size doc_id paras ([], [], 0)

theorem chunkRawB_fst (chunk_size overlap_size : Nat) (doc_id : String)
    (text : Str) :
    (TextChunker.chunkRawB chunk_size overlap_size doc_id text).map Prod.fst
      = TextChunker.chunkRaw chunk_size overlap_size doc_id text := by
  unfold TextChunker.chunkRaw TextChunker.chunkRawB
  rw [chunkLoop_eq_fst]
  dsimp only
  split_ifs with h
  · simp [List.map_append]
  · rfl

theorem chunkInstr_fst (chunk_size overlap_size : Nat) (doc_id : String)
    (text : Str) :
    (TextChunker.chunkInstr chunk_size overlap_size doc_id text).map Prod.fst
      = TextChunker.chunkPure chunk_size overlap_size doc_id text := by
  unfold TextChunker.chunkInstr TextChunker.chunkPure
  by_cases ht : text = []
  · rw [if_pos ht, if_pos ht]
    rfl
  · rw [if_neg ht, if_neg ht]
    dsimp only
    rw [← chunkRawB_fst]
    by_cases hr : TextChunker.chunkRawB chunk_size overlap_size doc_id text
        = []
    · have hmap : (TextChunker.chunkRawB chunk_size overlap_size doc_id
          text).map Prod.fst = [] := by rw [hr]; rfl
      rw [if_pos ⟨hr, ht⟩, if_pos ⟨hmap, ht⟩]
      rfl
    · rw [if_neg (fun hc => hr hc.1),
        if_neg (fun hc => hr (List.map_eq_nil_iff.mp hc.1))]

theorem chunkStepB_inv (chunk_size overlap_size : Nat) (doc_id : String)
    (st : List (Chunk × Str) × Str × Nat) (p : Str)
    (h : LoopInv overlap_size st) :
    LoopInv overlap_size
      (TextChunker.chunkStepB chunk_size overlap_size doc_id st p) := by
  rcases st with ⟨chunks, cur, idx⟩
  have hcur_nil := h.cur_nil
  have hcur_ends := h.cur_ends
  have htext := h.text_eq
  have hchain := h.chain
  have hseed := h.seeded
  dsimp only at hcur_nil hcur_ends htext hchain hseed
  unfold TextChunker.chunkStepB
  dsimp only
  by_cases h1 : pyStrip p = []
  · rw [if_pos h1]
    exact h
  · rw [if_neg h1]
    have hpara_ends : noTrailWS (pyStrip p) := pyStrip_last_not_space p
    by_cases h2 : cur.length + (pyStrip p).length + 2 > chunk_size
        ∧ cur ≠ []
    · rw [if_pos h2]
      obtain ⟨-, hcurne⟩ := h2
      have hlcur : lstrip cur ≠ [] := lstrip_cur_ne_nil hcurne hcur_ends
      have hseed_ne : (if overlap_size > 0 then
          lastN cur overlap_size ++ paraSep ++ pyStrip p
          else pyStrip p) ≠ [] := by
        by_cases hos : overlap_size > 0
        · rw [if_pos hos]
          intro habs
          exact h1 (List.append_eq_nil.mp habs).2
        · rw [if_neg hos]
          exact h1
      have hseed_ends : noTrailWS (if overlap_size > 0 then
          lastN cur overlap_size ++ paraSep ++ pyStrip p
          else pyStrip p) := by
        by_cases hos : overlap_size > 0
        · rw [if_pos hos]
          intro c hc
          rw [List.getLast?_append_of_ne_nil _ h1] at hc
          exact hpara_ends c hc
        · rw [if_neg hos]
          exact hpara_ends
      refine ⟨fun habs => absurd habs hseed_ne, hseed_ends, ?_, ?_, ?_⟩
      · intro pr hpr
        rcases List.mem_append.mp hpr with hpr | hpr
        · exact htext pr hpr
        · rcases List.mem_singleton.mp hpr with rfl
          rfl
      · refine List.chain'_append.mpr
          ⟨hchain, List.chain'_singleton _, ?_⟩
        intro x hx y hy
        have hy' : ((⟨doc_id, idx, pyStrip cur⟩ : Chunk), cur) = y := by
          simpa using hy
        cases hy'
        show lstrip (lastN x.2 overlap_size) <+: pyStrip cur
        rw [pyStrip_eq_lstrip hcur_ends]
        exact hseed x hx hcurne
      · intro pr hpr hne
        rw [List.getLast?_concat] at hpr
        cases hpr
        dsimp only
        by_cases hos : overlap_size > 0
        · rw [if_pos hos, List.append_assoc,
            lstrip_append_of_ne_nil _
              (lstrip_lastN_ne_nil hcurne hcur_ends hos)]
          exact List.prefix_append _ _
        · have : overlap_size = 0 := Nat.eq_zero_of_not_pos hos
          subst this
          rw [lastN_zero]
          exact List.nil_prefix
    · rw [if_neg h2]
      by_cases hcurne : cur ≠ []
      · rw [if_pos hcurne]
        have hnewne : cur ++ paraSep ++ pyStrip p ≠ [] := by
          intro habs
          exact h1 (List.append_eq_nil.mp habs).2
        refine ⟨fun habs => absurd habs hnewne, ?_, htext, hchain, ?_⟩
        · intro c hc
          rw [List.getLast?_append_of_ne_nil _ h1] at hc
          exact hpara_ends c hc
        · intro pr hpr hne
          have hlcur : lstrip cur ≠ [] := lstrip_cur_ne_nil hcurne hcur_ends
          rw [List.append_assoc, lstrip_append_of_ne_nil _ hlcur]
          exact (hseed pr hpr hcurne).trans (List.prefix_append _ _)
      · rw [if_neg hcurne]
        have hcur0 : cur = [] := not_not.mp hcurne
        have hchunks0 : chunks = [] := hcur_nil hcur0
        refine ⟨fun _ => hchunks0, hpara_ends, htext, hchain, ?_⟩
        intro pr hpr hne
        rw [hchunks0] at hpr
        cases hpr

theorem chunkLoopB_inv (chunk_size overlap_size : Nat) (doc_id : String)
    (paras : List Str) :
    ∀ st : List (Chunk × Str) × Str × Nat, LoopInv overlap_size st →
      LoopInv overlap_size
        (paras.foldl (TextChunker.chunkStepB chunk_size overlap_size doc_id)
          st) := by
  induction paras with
  | nil => intro st h; exact h
  | cons p rest ih =>
    intro st h
    rw [List.foldl_cons]
    exact ih _ (chunkStepB_inv chunk_size overlap_size doc_id st p h)

theorem loopInv_init (overlap_size : Nat) :
    LoopInv overlap_size (([], [], 0) : List (Chunk × Str) × Str × Nat) := by
  exact LoopInv.mk (fun _ => rfl) (fun c hc => nomatch hc)
    (fun pr hpr => absurd hpr (List.not_mem_nil pr)) List.chain'_nil
    (fun pr hpr => nomatch hpr)

theorem chunkRawB_good (chunk_size overlap_size : Nat) (doc_id : String)
    (text : Str) :
    List.Chain' (overlapSeeded overlap_size)
        (TextChunker.chunkRawB chunk_size overlap_size doc_id text)
      ∧ ∀ pr ∈ TextChunker.chunkRawB chunk_size overlap_size doc_id text,
          pr.1.text = pyStrip pr.2 := by
  have hinv : LoopInv overlap_size
      (TextChunker.chunkLoopB chunk_size overlap_size doc_id
        (splitParas text)) :=
    chunkLoopB_inv chunk_size overlap_size doc_id
      (splitParas text) ([], [], 0) (loopInv_init overlap_size)
  unfold TextChunker.chunkRawB
  dsimp only
  set st := TextChunker.chunkLoopB chunk_size overlap_size doc_id
    (splitParas text) with hst
  by_cases hflush : pyStrip st.2.1 = []
  · rw [if_neg (fun hn => hn hflush)]
    exact ⟨hinv.chain, hinv.text_eq⟩
  · rw [if_pos hflush]
    have hcurne : st.2.1 ≠ [] := by
      intro hnil
      rw [hnil] at hflush
      exact hflush rfl
    constructor
    · refine List.chain'_append.mpr
        ⟨hinv.chain, List.chain'_singleton _, ?_⟩
      intro x hx y hy
      have hy' : ((⟨doc_id, st.2.2, pyStrip st.2.1⟩ : Chunk), st.2.1) = y := by
        simpa using hy
      cases hy'
      show lstrip (lastN x.2 overlap_size) <+: pyStrip st.2.1
      rw [pyStrip_eq_lstrip hinv.cur_ends]
      exact hinv.seeded x hx hcurne
    · intro pr hpr
      rcases List.mem_append.mp hpr with hpr | hpr
      · exact hinv.text_eq pr hpr
      · rcases List.mem_singleton.mp hpr with rfl
        rfl

theorem chunkInstr_good (chunk_size overlap_size : Nat) (doc_id : String)
    (text : Str) :
    List.Chain' (overlapSeeded overlap_size)
        (TextChunker.chunkInstr chunk_size overlap_size doc_id text)
      ∧ ∀ pr ∈ TextChunker.chunkInstr chunk_size overlap_size doc_id text,
          pr.1.text = pyStrip pr.2 := by
  unfold TextChunker.chunkInstr
  by_cases ht : text = []
  · rw [if_pos ht]
    exact ⟨List.chain'_nil, fun pr hpr => absurd hpr (List.not_mem_nil pr)⟩
  · rw [if_neg ht]
    dsimp only
    by_cases hr : TextChunker.chunkRawB chunk_size overlap_size doc_id text
        = []
    · rw [if_pos ⟨hr, ht⟩]
      refine ⟨List.chain'_singleton _, ?_⟩
      intro pr hpr
      rcases List.mem_singleton.mp hpr with rfl
      rfl
    · rw [if_neg (fun hc => hr hc.1)]
      exact chunkRawB_good chunk_size overlap_size doc_id text

/-- C5: projecting away the recorded buffers, the instrumented chunker is
the chunker; every chunk's text is its closed-out buffer stripped; and for
every pair of consecutive chunks, chunk k+1's text begins with the trailing
`overlap_size` characters of the buffer closed out as chunk k, up to the
edge whitespace removed by the strip at the paragraph-boundary seam. -/
theorem c5_overlap_invariant (chunk_size overlap_size : Nat)
    (doc_id : String) (text : Str) :
    (TextChunker.chunkInstr chunk_size overlap_size doc_id text).map Prod.fst
        = TextChunker.chunkPure chunk_size overlap_size doc_id text
      ∧ (∀ pr ∈ TextChunker.chunkInstr chunk_size overlap_size doc_id text,
          pr.1.text = pyStrip pr.2)
      ∧ ∀ (k : Nat) (a b : Chunk × Str),
          (TextChunker.chunkInstr chunk_size overlap_size doc_id text)[k]?
              = some a →
          (TextChunker.chunkInstr chunk_size overlap_size doc_id
            text)[k + 1]? = some b →
          lstrip (lastN a.2 overlap_size) <+: b.1.text := by
  refine ⟨chunkInstr_fst _ _ _ _,
    (chunkInstr_good chunk_size overlap_size doc_id text).2, ?_⟩
  intro k a b ha hb
  set l := TextChunker.chunkInstr chunk_size overlap_size doc_id text
    with hl
  have hchain := (chunkInstr_good chunk_size overlap_size doc_id text).1
  rw [← hl] at hchain
  have hlen : k + 1 < l.length := by
    by_contra hcon
    rw [List.getElem?_eq_none (Nat.le_of_not_lt hcon)] at hb
    cases hb
  have hlen0 : k < l.length := Nat.lt_of_succ_lt hlen
  have ha' : l[k] = a :=
    Option.some.inj ((List.getElem?_eq_getElem hlen0).symm.trans ha)
  have hb' : l[k + 1] = b :=
    Option.some.inj ((List.getElem?_eq_getElem hlen).symm.trans hb)
  have hR := List.chain'_iff_get.mp hchain k (by omega)
  rw [List.get_eq_getElem, List.get_eq_getElem] at hR
  rw [ha', hb'] at hR
  exact hR

/-- Witness for C5: for `"aaaa\n\nbbbb"` with `chunk_size = 5` and
`overlap_size = 2`, chunk 1 (`"aa\n\nbbbb"`) begins with the last 2
characters (`"aa"`) of the buffer that chunk 0 was closed out from. -/
theorem c5_overlap_invariant_witness :
    lstrip (lastN ("aaaa".toList) 2) <+: ("aa\n\nbbbb".toList) :=
  (c5_overlap_invariant 5 2 "d" ("aaaa\n\nbbbb".toList)).2.2 0
    ((⟨"d", 0, "aaaa".toList⟩ : Chunk), "aaaa".toList)
    ((⟨"d", 1, "aa\n\nbbbb".toList⟩ : Chunk), "aa\n\nbbbb".toList)
    (by decide) (by decide)

/-- C6: `reduce(doc_id, title, [], force_rerun)` returns none immediately —
no oracle invocation, no cache read, and the cache is returned unchanged. -/
theorem c6_reduce_short_circuit (oracle : Oracle) (cache : ReduceCache)
    (doc_id : String) (title : Str) (force_rerun : Bool) :
    ReduceSummarizer.reduce oracle cache doc_id title [] force_rerun
      = ⟨none, cache, 0, 0⟩ := by
  rfl

/-- C2: whenever any stage of the pipeline body raises (the body resolves to
an exception), `SummarizationPipeline.run` catches it and returns none — run
never propagates a stage exception to its caller. -/
theorem c2_run_catches_stage_exceptions {Raw : Type} (scrape : Except Unit Raw)
    (normalize : Raw → Except Unit Document)
    (chunkStage : String → Str → Except Unit (List Chunk))
    (mapStage : List Chunk → Except Unit (List ChunkSummary))
    (reduceStage : String → Str → List Str → Except Unit (Option Str))
    (e : Unit)
    (h : runBody scrape normalize chunkStage mapStage reduceStage = .error e) :
    SummarizationPipeline.run scrape normalize chunkStage mapStage reduceStage
      = none := by
  unfold SummarizationPipeline.run
  rw [h]

/-- Witness for C2: with a scraper that raises, run returns none. -/
theorem c2_run_catches_stage_exceptions_witness :
    SummarizationPipeline.run (Except.error () : Except Unit Unit)
      (fun _ => .ok ⟨"d", [], []⟩) (fun _ _ => .ok []) (fun _ => .ok [])
      (fun _ _ _ => .ok none) = none :=
  c2_run_catches_stage_exceptions (.error ()) (fun _ => .ok ⟨"d", [], []⟩)
    (fun _ _ => .ok []) (fun _ => .ok []) (fun _ _ _ => .ok none) () rfl

/-- C3 counterexample: with a chunk store whose write fails, `chunk`
propagates the exception instead of returning an empty sequence — the claim
that `chunk` never raises to its caller is false at this input. -/
theorem c3_counterexample :
    TextChunker.chunk 1000 150 (fun _ _ => .error ()) "d" ("hello".toList)
      = .error () := by
  rfl

/-- C3 amended: `chunk(doc_id, text)` never raises provided persisting the
chunk set succeeds (the string processing itself is total); a persistence
failure, by contrast, propagates to the caller. -/
theorem c3_chunk_no_raise_amended (chunk_size overlap_size : Nat)
    (save : String → List Chunk → Except Unit Unit)
    (doc_id : String) (text : Str)
    (h : ∀ chunks, save doc_id chunks = .ok ()) :
    TextChunker.chunk chunk_size overlap_size save doc_id text
      = .ok (TextChunker.chunkPure chunk_size overlap_size doc_id text) := by
  unfold TextChunker.chunk
  simp only []
  rw [h]

/-- Witness for C3 amended: a succeeding store makes `chunk` return its
computed chunk list. -/
theorem c3_chunk_no_raise_amended_witness :
    TextChunker.chunk 1000 150 (fun _ _ => .ok ()) "d" ("hello".toList)
      = .ok (TextChunker.chunkPure 1000 150 "d" ("hello".toList)) :=
  c3_chunk_no_raise_amended 1000 150 (fun _ _ => .ok ()) "d" ("hello".toList)
    (fun _ => rfl)

/-- C8: for non-empty input text the chunker emits at least one chunk, and
when the paragraph loop plus final flush produced none, exactly one fallback
chunk holding the full trimmed text at index 0 is emitted. -/
theorem c8_chunk_coverage (chunk_size overlap_size : Nat) (doc_id : String)
    (text : Str) (h : text ≠ []) :
    TextChunker.chunkPure chunk_size overlap_size doc_id text ≠ []
      ∧ (TextChunker.chunkRaw chunk_size overlap_size doc_id text = [] →
          TextChunker.chunkPure chunk_size overlap_size doc_id text
            = [⟨doc_id, 0, pyStrip text⟩]) := by
  unfold TextChunker.chunkPure
  rw [if_neg h]
  by_cases hraw : TextChunker.chunkRaw chunk_size overlap_size doc_id text = []
  · rw [if_pos ⟨hraw, h⟩]
    exact ⟨by simp, fun _ => rfl⟩
  · rw [if_neg (fun hc => hraw hc.1)]
    exact ⟨hraw, fun hc => absurd hc hraw⟩

/-- Witness for C8 at a concrete non-empty text. -/
theorem c8_chunk_coverage_witness :
    TextChunker.chunkPure 1000 150 "d" ("hi".toList) ≠ []
      ∧ (TextChunker.chunkRaw 1000 150 "d" ("hi".toList) = [] →
          TextChunker.chunkPure 1000 150 "d" ("hi".toList)
            = [⟨"d", 0, pyStrip ("hi".toList)⟩]) :=
  c8_chunk_coverage 1000 150 "d" ("hi".toList) (by decide)

/-- C1 counterexample: with an oracle whose response strips to the empty
string, the first call caches `""`; the cached empty string is falsy in
`if cached:`, so the second call misses the cache and invokes the oracle
again — two oracle invocations across the two calls, refuting "at most
once". -/
theorem c1_counterexample :
    (MapSummarizer.summarize_chunk (fun _ => .ok []) emptyMapCache
        ⟨"d", 0, "x".toList⟩ false).calls
      + (MapSummarizer.summarize_chunk (fun _ => .ok [])
          (MapSummarizer.summarize_chunk (fun _ => .ok []) emptyMapCache
            ⟨"d", 0, "x".toList⟩ false).cache
          ⟨"d", 0, "x".toList⟩ false).calls = 2
    ∧ ¬ ((MapSummarizer.summarize_chunk (fun _ => .ok []) emptyMapCache
        ⟨"d", 0, "x".toList⟩ false).calls
      + (MapSummarizer.summarize_chunk (fun _ => .ok [])
          (MapSummarizer.summarize_chunk (fun _ => .ok []) emptyMapCache
            ⟨"d", 0, "x".toList⟩ false).cache
          ⟨"d", 0, "x".toList⟩ false).calls ≤ 1) := by
  refine ⟨rfl, ?_⟩
  intro h
  simp only [show (MapSummarizer.summarize_chunk (fun _ => .ok []) emptyMapCache
      ⟨"d", 0, "x".toList⟩ false).calls
    + (MapSummarizer.summarize_chunk (fun _ => .ok [])
        (MapSummarizer.summarize_chunk (fun _ => .ok []) emptyMapCache
          ⟨"d", 0, "x".toList⟩ false).cache
        ⟨"d", 0, "x".toList⟩ false).calls = 2 from rfl] at h
  exact absurd h (by decide)

/-- C1 amended: whenever the first `summarize_chunk` call with
`force_rerun = False` returns a non-empty summary (a non-empty cache hit, or
an oracle success whose trim is non-empty), the two calls together invoke the
oracle at most once and the second call returns the identical cached text.
The unqualified claim fails when the oracle raises or returns
whitespace-only text. -/
theorem c1_idempotence_amended (oracle : Oracle) (cache : MapCache)
    (c : Chunk) (s : Str)
    (h : (MapSummarizer.summarize_chunk oracle cache c false).result = some s)
    (hs : s ≠ []) :
    (MapSummarizer.summarize_chunk oracle cache c false).calls
        + (MapSummarizer.summarize_chunk oracle
            (MapSummarizer.summarize_chunk oracle cache c false).cache
            c false).calls ≤ 1
      ∧ (MapSummarizer.summarize_chunk oracle
          (MapSummarizer.summarize_chunk oracle cache c false).cache
          c false).result
        = (MapSummarizer.summarize_chunk oracle cache c false).result := by
  rcases hchk : MapSummarizer.cachedCheck cache c false with _ | s₀
  · rcases horacle : oracle (mapPrompt c.text) with e | response
    · rw [MapSummarizer.summarize_chunk_of_miss_error hchk horacle] at h
      cases h
    · rw [MapSummarizer.summarize_chunk_of_miss_ok hchk horacle] at h ⊢
      have hsum : pyStrip response = s := by
        simpa using h
      have hchk2 : MapSummarizer.cachedCheck
          (saveMapSummary cache c.parent_id c.chunk_index (pyStrip response))
          c false = some (pyStrip response) := by
        unfold MapSummarizer.cachedCheck
        simp [loadCachedSummary, saveMapSummary, hsum, hs]
      rw [MapSummarizer.summarize_chunk_of_hit oracle hchk2]
      exact ⟨by simp, rfl⟩
  · have h0 := @MapSummarizer.summarize_chunk_of_hit cache c false s₀
      oracle hchk
    rw [h0] at h ⊢
    rw [MapSummarizer.summarize_chunk_of_hit oracle hchk]
    exact ⟨by simp, rfl⟩

/-- Witness for C1 amended: a non-empty oracle response is summarized once;
the second call is a pure cache hit with the identical text. -/
theorem c1_idempotence_amended_witness :
    (MapSummarizer.summarize_chunk (fun _ => .ok ("sum".toList)) emptyMapCache
        ⟨"d", 0, "x".toList⟩ false).calls
        + (MapSummarizer.summarize_chunk (fun _ => .ok ("sum".toList))
            (MapSummarizer.summarize_chunk (fun _ => .ok ("sum".toList))
              emptyMapCache ⟨"d", 0, "x".toList⟩ false).cache
            ⟨"d", 0, "x".toList⟩ false).calls ≤ 1
      ∧ (MapSummarizer.summarize_chunk (fun _ => .ok ("sum".toList))
          (MapSummarizer.summarize_chunk (fun _ => .ok ("sum".toList))
            emptyMapCache ⟨"d", 0, "x".toList⟩ false).cache
          ⟨"d", 0, "x".toList⟩ false).result
        = (MapSummarizer.summarize_chunk (fun _ => .ok ("sum".toList))
            emptyMapCache ⟨"d", 0, "x".toList⟩ false).result :=
  c1_idempotence_amended (fun _ => .ok ("sum".toList)) emptyMapCache
    ⟨"d", 0, "x".toList⟩ ("sum".toList) rfl (by decide)

/-- C7: with `force_rerun = True` the oracle is always invoked (exactly one
invocation, cache hit or not), and whenever the oracle returns a response the
cache entry for `(parent_id, chunk_index)` is overwritten with the trimmed
response, which is also the returned summary. -/
theorem c7_force_rerun_bypass (oracle : Oracle) (cache : MapCache)
    (c : Chunk) :
    (MapSummarizer.summarize_chunk oracle cache c true).calls = 1
      ∧ (∀ response, oracle (mapPrompt c.text) = .ok response →
          (MapSummarizer.summarize_chunk oracle cache c true).result
              = some (pyStrip response)
            ∧ (MapSummarizer.summarize_chunk oracle cache c true).cache
                (c.parent_id, c.chunk_index) = some (pyStrip response)) := by
  have hchk : MapSummarizer.cachedCheck cache c true = none := rfl
  rcases horacle : oracle (mapPrompt c.text) with e | response
  · rw [MapSummarizer.summarize_chunk_of_miss_error hchk horacle]
    exact ⟨rfl, fun r hr => nomatch hr⟩
  · rw [MapSummarizer.summarize_chunk_of_miss_ok hchk horacle]
    refine ⟨rfl, fun r hr => ?_⟩
    cases hr
    exact ⟨rfl, by simp [saveMapSummary]⟩

/-- The cache key of a chunk: `(parent_id, chunk_index)`. -/
def chunkKey (c : Chunk) : String × Nat := (c.parent_id, c.chunk_index)

/-- The trimmed oracle response for a chunk (empty on oracle failure). -/
def oracleText (oracle : Oracle) (c : Chunk) : Str :=
  match oracle (mapPrompt c.text) with
  | .ok response => pyStrip response
  | .error _ => []

/-- What `summarize_chunks` contributes for one cache-missing chunk: nothing
on an oracle failure or a whitespace-only response, otherwise its
`ChunkSummary`. -/
def emitSummary (oracle : Oracle) (c : Chunk) : Option ChunkSummary :=
  match oracle (mapPrompt c.text) with
  | .ok response =>
    if pyStrip response = [] then none
    else some ⟨c.parent_id, c.chunk_index, pyStrip response⟩
  | .error _ => none

theorem summarize_chunk_cache_other (oracle : Oracle) (cache : MapCache)
    (c : Chunk) (force_rerun : Bool) (k : String × Nat)
    (hk : k ≠ (c.parent_id, c.chunk_index)) :
    (MapSummarizer.summarize_chunk oracle cache c force_rerun).cache k
      = cache k := by
  rcases hchk : MapSummarizer.cachedCheck cache c force_rerun with _ | s₀
  · rcases horacle : oracle (mapPrompt c.text) with e | response
    · rw [MapSummarizer.summarize_chunk_of_miss_error hchk horacle]
    · rw [MapSummarizer.summarize_chunk_of_miss_ok hchk horacle]
      simp [saveMapSummary, hk]
  · rw [MapSummarizer.summarize_chunk_of_hit oracle hchk]

theorem summarize_chunks_cons (oracle : Oracle) (cache : MapCache) (c : Chunk)
    (rest : List Chunk) (force_rerun : Bool) :
    MapSummarizer.summarize_chunks oracle cache (c :: rest) force_rerun
      = MapSummarizer.appendSummary c
          (MapSummarizer.summarize_chunk oracle cache c force_rerun).result
          (MapSummarizer.summarize_chunks oracle
            (MapSummarizer.summarize_chunk oracle cache c force_rerun).cache
            rest force_rerun) := by
  rfl

theorem appendSummary_none (c : Chunk) (tail : List ChunkSummary × MapCache) :
    MapSummarizer.appendSummary c none tail = tail := rfl

theorem appendSummary_some_ne (c : Chunk) (s : Str) (hs : s ≠ [])
    (tail : List ChunkSummary × MapCache) :
    MapSummarizer.appendSummary c (some s) tail
      = (⟨c.parent_id, c.chunk_index, s⟩ :: tail.1, tail.2) := by
  simp [MapSummarizer.appendSummary, hs]

theorem appendSummary_some_nil (c : Chunk)
    (tail : List ChunkSummary × MapCache) :
    MapSummarizer.appendSummary c (some []) tail = tail := rfl

theorem filterMap_eq_map_of {α β : Type} (f : α → Option β) (g : α → β) :
    ∀ l : List α, (∀ a ∈ l, f a = some (g a)) → l.filterMap f = l.map g
  | [], _ => rfl
  | a :: l, h => by
    rw [List.filterMap_cons, h a (List.mem_cons_self a l),
      filterMap_eq_map_of f g l (fun b hb => h b (List.mem_cons_of_mem a hb)),
      List.map_cons]

/-- A map run over chunks none of whose keys are cached and whose keys are
pairwise distinct emits exactly the per-chunk contributions, in order. -/
theorem mapRunClean (oracle : Oracle) (cs : List Chunk) :
    ∀ cache : MapCache, (∀ c ∈ cs, cache (chunkKey c) = none) →
      cs.Pairwise (fun a b => chunkKey a ≠ chunkKey b) →
      (MapSummarizer.summarize_chunks oracle cache cs false).1
        = cs.filterMap (emitSummary oracle) := by
  induction cs with
  | nil => intro cache _ _; rfl
  | cons c rest ih =>
    intro cache hnone hpair
    have hchk : MapSummarizer.cachedCheck cache c false = none := by
      unfold MapSummarizer.cachedCheck
      have : loadCachedSummary cache c.parent_id c.chunk_index = none :=
        hnone c (List.mem_cons_self c rest)
      rw [this]
      rfl
    have hrest : ∀ c' ∈ rest,
        (MapSummarizer.summarize_chunk oracle cache c false).cache (chunkKey c')
          = none := by
      intro c' hc'
      rw [summarize_chunk_cache_other oracle cache c false (chunkKey c')
        (List.rel_of_pairwise_cons hpair hc').symm]
      exact hnone c' (List.mem_cons_of_mem c hc')
    have htail := ih (MapSummarizer.summarize_chunk oracle cache c false).cache
      hrest (List.Pairwise.of_cons hpair)
    rw [summarize_chunks_cons, List.filterMap_cons]
    rcases horacle : oracle (mapPrompt c.text) with e | response
    · rw [MapSummarizer.summarize_chunk_of_miss_error hchk horacle] at htail ⊢
      have hemit : emitSummary oracle c = none := by
        unfold emitSummary
        rw [horacle]
      rw [hemit, appendSummary_none]
      exact htail
    · rw [MapSummarizer.summarize_chunk_of_miss_ok hchk horacle] at htail ⊢
      have hemit : emitSummary oracle c
          = if pyStrip response = [] then none
            else some ⟨c.parent_id, c.chunk_index, pyStrip response⟩ := by
        unfold emitSummary
        rw [horacle]
      rw [hemit]
      by_cases hnil : pyStrip response = []
      · rw [if_pos hnil, hnil, appendSummary_some_nil]
        rw [hnil] at htail
        exact htail
      · rw [if_neg hnil, appendSummary_some_ne c _ hnil]
        rw [htail]

/-- C4: over a chunk list with pairwise-distinct keys, none of them cached,
where the oracle raises on exactly the middle chunk `cj` and returns a
non-whitespace response for every other chunk, `summarize_chunks` returns
exactly N-1 chunk summaries, namely those of the other chunks in their
original relative order. -/
theorem c4_partial_failure (oracle : Oracle) (cache : MapCache)
    (l1 l2 : List Chunk) (cj : Chunk)
    (hcache : ∀ c ∈ l1 ++ cj :: l2, cache (chunkKey c) = none)
    (hpair : (l1 ++ cj :: l2).Pairwise (fun a b => chunkKey a ≠ chunkKey b))
    (hfail : oracle (mapPrompt cj.text) = .error ())
    (hok : ∀ c ∈ l1 ++ l2,
      ∃ response, oracle (mapPrompt c.text) = .ok response
        ∧ pyStrip response ≠ []) :
    (MapSummarizer.summarize_chunks oracle cache (l1 ++ cj :: l2) false).1
        = (l1 ++ l2).map
            (fun c => ⟨c.parent_id, c.chunk_index, oracleText oracle c⟩)
      ∧ (MapSummarizer.summarize_chunks oracle cache
          (l1 ++ cj :: l2) false).1.length
        = (l1 ++ cj :: l2).length - 1 := by
  have hclean := mapRunClean oracle (l1 ++ cj :: l2) cache hcache hpair
  have hemitj : emitSummary oracle cj = none := by
    unfold emitSummary
    rw [hfail]
  have hemit : ∀ c ∈ l1 ++ l2, emitSummary oracle c
      = some ⟨c.parent_id, c.chunk_index, oracleText oracle c⟩ := by
    intro c hc
    obtain ⟨response, hresp, hne⟩ := hok c hc
    unfold emitSummary oracleText
    rw [hresp]
    simp [hne]
  have hmain : (MapSummarizer.summarize_chunks oracle cache
      (l1 ++ cj :: l2) false).1
      = (l1 ++ l2).map
          (fun c => ⟨c.parent_id, c.chunk_index, oracleText oracle c⟩) := by
    rw [hclean, List.filterMap_append, List.filterMap_cons, hemitj]
    rw [filterMap_eq_map_of (emitSummary oracle) _ l1
      (fun a ha => hemit a (List.mem_append_left l2 ha))]
    rw [filterMap_eq_map_of (emitSummary oracle) _ l2
      (fun a ha => hemit a (List.mem_append_right l1 ha))]
    rw [List.map_append]
  refine ⟨hmain, ?_⟩
  rw [hmain]
  simp only [List.length_map, List.length_append, List.length_cons]
  omega

/-- Witness for C4: three chunks, the middle one failing, yield the two
surviving summaries in order. -/
theorem c4_partial_failure_witness :
    (MapSummarizer.summarize_chunks
        (fun p => if p = mapPrompt ("b".toList) then .error ()
          else .ok ("s".toList))
        emptyMapCache
        [⟨"d", 0, "a".toList⟩, ⟨"d", 1, "b".toList⟩, ⟨"d", 2, "c".toList⟩]
        false).1
        = [⟨"d", 0, "s".toList⟩, ⟨"d", 2, "s".toList⟩]
      ∧ (MapSummarizer.summarize_chunks
          (fun p => if p = mapPrompt ("b".toList) then .error ()
            else .ok ("s".toList))
          emptyMapCache
          [⟨"d", 0, "a".toList⟩, ⟨"d", 1, "b".toList⟩, ⟨"d", 2, "c".toList⟩]
          false).1.length = 2 := by
  have h := c4_partial_failure
    (fun p => if p = mapPrompt ("b".toList) then .error () else .ok ("s".toList))
    emptyMapCache
    [⟨"d", 0, "a".toList⟩] [⟨"d", 2, "c".toList⟩] ⟨"d", 1, "b".toList⟩
    (fun _ _ => rfl)
    (by decide)
    rfl
    (by
      intro c hc
      simp only [List.mem_append, List.mem_singleton] at hc
      rcases hc with hc | hc <;> subst hc <;>
        exact ⟨"s".toList, rfl, by decide⟩)
  exact ⟨h.1.trans (by decide), h.2.trans rfl⟩

/-- Witness for C7: a pre-existing cache entry `"old"` is bypassed and
overwritten by the new trimmed oracle response. -/
theorem c7_force_rerun_bypass_witness :
    (MapSummarizer.summarize_chunk (fun _ => .ok (" new ".toList))
        (fun _ => some ("old".toList)) ⟨"d", 0, "x".toList⟩ true).calls = 1
      ∧ (MapSummarizer.summarize_chunk (fun _ => .ok (" new ".toList))
          (fun _ => some ("old".toList)) ⟨"d", 0, "x".toList⟩ true).result
          = some (pyStrip (" new ".toList))
      ∧ (MapSummarizer.summarize_chunk (fun _ => .ok (" new ".toList))
          (fun _ => some ("old".toList)) ⟨"d", 0, "x".toList⟩ true).cache
          ("d", 0) = some (pyStrip (" new ".toList)) := by
  have h := c7_force_rerun_bypass (fun _ => .ok (" new ".toList))
    (fun _ => some ("old".toList)) ⟨"d", 0, "x".toList⟩
  have h2 := h.2 (" new ".toList) rfl
  exact ⟨h.1, h2.1, h2.2⟩
